import Mathlib

/-!
Verification of the polling/backoff/buffering engine of `src/Ticker/App.py`
(dual Binance price ticker).  The definitions below are a shallow embedding of
the module constants, the per-series buffers (`SeriesState.__init__`), the
provider call (`fetch_price`) and the polling loop (`poll_symbol`).  Times,
prices and delays are modelled as rationals; the asyncio waits are modelled by
explicit clock arithmetic, with the distinction between the interruptible
`asyncio.wait_for(stop_event.wait(), ...)` (line 108) and the plain
`asyncio.sleep(...)` backoff (line 121) kept explicit.
-/

/-- Module constant `POLL_INTERVAL_SEC = 2` (App.py line 47). -/
def POLL_INTERVAL_SEC : ℚ := 2

/-- Module constant `BUFFER_POINTS = 300` (App.py line 48), the `maxlen` of both
deques of a `SeriesState`. -/
def BUFFER_POINTS : Nat := 300

/-- Module constant `REQUEST_TIMEOUT = 10` (App.py line 50). -/
def REQUEST_TIMEOUT : ℚ := 10

/-- Appending to a `collections.deque` with `maxlen = m`: the new element is
added as the newest, and the oldest elements are discarded so that at most `m`
remain (App.py lines 65-66 create the deques, lines 105-106 append). -/
def dequeAppend {α : Type} (m : Nat) (buf : List α) (x : α) : List α :=
  let b := buf ++ [x]
  b.drop (b.length - m)

/-- The mutable state threaded through one `poll_symbol` loop: the two deques of
the symbol's `SeriesState` (`ts`, `values`) and the local backoff variable
`next_delay` (App.py line 98). -/
structure PollState where
  ts : List ℚ
  values : List ℚ
  nextDelay : ℚ
deriving DecidableEq

/-- Initial state: `SeriesState.__init__` makes both deques empty, and
`poll_symbol` initialises `next_delay = POLL_INTERVAL_SEC`. -/
def initPoll : PollState :=
  { ts := [], values := [], nextDelay := POLL_INTERVAL_SEC }

/-- Outcome of one `fetch_price` call as seen by the `try` block of
`poll_symbol`: a successful float price, an `asyncio.TimeoutError` (the HTTP
request timed out), or any other exception (network error, non-success HTTP
status via `raise_for_status`, `KeyError`, `TypeError`, `ValueError`, ...). -/
inductive FetchResult where
  | ok (price : ℚ)
  | timeoutErr
  | exn
deriving DecidableEq

/-- Environment input consumed by one iteration of the `while` loop of
`poll_symbol`: the value of `state.paused` observed at line 101, what the fetch
would produce, how long the fetch call takes, and whether (and how many seconds
into the post-fetch wait) the stop event gets set during this iteration. -/
structure TickInput where
  paused : Bool
  fetch : FetchResult
  fetchDur : ℚ
  stopDuring : Option ℚ
deriving DecidableEq

/-- The two kinds of wait the loop performs: `asyncio.wait_for(stop_event.wait(),
timeout=POLL_INTERVAL_SEC)` at line 108, and the plain `asyncio.sleep(...)`
backoff at line 121. -/
inductive WaitKind where
  | stopWaitFor
  | plainSleep
deriving DecidableEq

/-- One wait performed by the loop, with its requested duration. -/
structure WaitEv where
  kind : WaitKind
  timeout : ℚ
deriving DecidableEq

/-- Observable record of one loop iteration: resulting state, waits performed,
whether a `[WARN]` line was printed, whether a fetch was attempted, the sample
appended (if any), and whether the loop continues (the `while not
stop_event.is_set()` check at line 99 passes again). -/
structure IterOut where
  state : PollState
  waits : List WaitEv
  warned : Bool
  fetched : Bool
  appended : Option (ℚ × ℚ)
  cont : Bool
deriving DecidableEq

/-- Lines 108-109: `await asyncio.wait_for(stop_event.wait(), timeout=
POLL_INTERVAL_SEC)` followed by `next_delay = POLL_INTERVAL_SEC`.  If the stop
event is set `a` seconds into the wait with `a < POLL_INTERVAL_SEC`, the wait
returns early, the reset line 109 runs, and the loop condition then fails.  If
the stop event is not set before the timeout, `asyncio.TimeoutError` is raised
and caught at line 110, whose handler is `continue` — the reset at line 109 is
skipped.  Result: (state, new clock, loop continues?). -/
def pollWait (s : PollState) (c : ℚ) (sd : Option ℚ) : PollState × ℚ × Bool :=
  match sd with
  | some a =>
    if a < POLL_INTERVAL_SEC then
      ({ ts := s.ts, values := s.values, nextDelay := POLL_INTERVAL_SEC }, c + a, false)
    else
      (s, c + POLL_INTERVAL_SEC, false)
  | none => (s, c + POLL_INTERVAL_SEC, true)

/-- One iteration of the body of the `while` loop of `poll_symbol` (lines
100-122), entered with the stop event unset.  `cap` is the deque `maxlen`
(`BUFFER_POINTS` in the source; a configuration parameter here), `c` the clock
when the iteration starts.  Returns the iteration record and the new clock. -/
def pollStep (cap : Nat) (s : PollState) (c : ℚ) (inp : TickInput) : IterOut × ℚ :=
  match inp.fetch, inp.paused with
  | _, true =>
    let w := pollWait s c inp.stopDuring
    ({ state := w.1, waits := [⟨WaitKind.stopWaitFor, POLL_INTERVAL_SEC⟩],
       warned := false, fetched := false, appended := none, cont := w.2.2 }, w.2.1)
  | FetchResult.ok p, false =>
    let now := c + inp.fetchDur
    let s1 : PollState :=
      { ts := dequeAppend cap s.ts now, values := dequeAppend cap s.values p,
        nextDelay := s.nextDelay }
    let w := pollWait s1 now inp.stopDuring
    ({ state := w.1, waits := [⟨WaitKind.stopWaitFor, POLL_INTERVAL_SEC⟩],
       warned := false, fetched := true, appended := some (now, p), cont := w.2.2 }, w.2.1)
  | FetchResult.timeoutErr, false =>
    ({ state := s, waits := [], warned := false, fetched := true, appended := none,
       cont := inp.stopDuring.isNone }, c + inp.fetchDur)
  | FetchResult.exn, false =>
    let wt := min 10 s.nextDelay
    ({ state := { ts := s.ts, values := s.values, nextDelay := min 10 (s.nextDelay * 2) },
       waits := [⟨WaitKind.plainSleep, wt⟩], warned := true, fetched := true,
       appended := none, cont := inp.stopDuring.isNone }, c + inp.fetchDur + wt)

/-- Run of the `while not stop_event.is_set()` loop over a list of iteration
inputs, stopping early when an iteration observes the stop event.  Returns the
final state, the final clock, and the records of the iterations executed. -/
def pollRun (cap : Nat) : PollState → ℚ → List TickInput → PollState × ℚ × List IterOut
  | s, c, [] => (s, c, [])
  | s, c, i :: rest =>
    let r := pollStep cap s c i
    if r.1.cont then
      let rr := pollRun cap r.1.state r.2 rest
      (rr.1, rr.2.1, r.1 :: rr.2.2)
    else
      (r.1.state, r.2, [r.1])

/-- A failing unpaused poll (fetch raises a non-timeout exception), with the
stop event unset and fetch duration 0. -/
def failInput : TickInput :=
  { paused := false, fetch := FetchResult.exn, fetchDur := 0, stopDuring := none }

/-- A successful unpaused poll returning price `p`, stop event unset, fetch
duration 0. -/
def okInput (p : ℚ) : TickInput :=
  { paused := false, fetch := FetchResult.ok p, fetchDur := 0, stopDuring := none }

/-- An unpaused poll whose HTTP request times out (`asyncio.TimeoutError`),
stop event unset. -/
def timeoutInput : TickInput :=
  { paused := false, fetch := FetchResult.timeoutErr, fetchDur := 0, stopDuring := none }

/-- A failing unpaused poll during whose backoff sleep the stop event is set
immediately (0 seconds in). -/
def stoppedFailInput : TickInput :=
  { paused := false, fetch := FetchResult.exn, fetchDur := 0, stopDuring := some 0 }

/-- A tick observed with `state.paused = True`, stop event unset. -/
def pausedTick : TickInput :=
  { paused := true, fetch := FetchResult.exn, fetchDur := 0, stopDuring := none }

/-- All samples in the buffer were taken at least one poll interval before
clock time `c`. -/
def clockAhead (s : PollState) (c : ℚ) : Prop :=
  ∀ t ∈ s.ts, t + POLL_INTERVAL_SEC ≤ c

/-- A JSON value that the top-level `"price"` field of the provider response
may hold: `null`, a JSON number, or a JSON string (Binance returns the price
as a decimal string such as `"109345.12"`). -/
inductive JsonVal where
  | jnull
  | jnum (q : ℚ)
  | jstr (s : String)
deriving DecidableEq

/-- The ways a `fetch_price` call can raise (App.py lines 82-85): the request
timed out (`asyncio.TimeoutError`), `raise_for_status` raised for an HTTP
status of 400 or higher, `data["price"]` raised `KeyError` because the field
is absent, `float(None)` raised `TypeError` for a null field, or `float(s)`
raised `ValueError` for a string that is not a number. -/
inductive FetchError where
  | timeout
  | httpStatus (st : Nat)
  | keyError
  | typeError
  | valueError
deriving DecidableEq

/-- A provider response as `fetch_price` observes it: whether the request timed
out before completing, the HTTP status, and the top-level `"price"` field of
the parsed JSON body (`none` when the key is absent). -/
structure ProviderResponse where
  timedOut : Bool
  status : Nat
  price : Option JsonVal
deriving DecidableEq

/-- Numeric value of a digit character. -/
def digitVal (c : Char) : Nat := c.toNat - 48

/-- Value of a digit string read in base 10. -/
def natVal (l : List Char) : Nat :=
  l.foldl (fun acc c => acc * 10 + digitVal c) 0

/-- Whitespace characters that Python `float(str)` strips from both ends
(C `isspace`: space, tab, newline, vertical tab, form feed, carriage return). -/
def isPySpace (c : Char) : Bool :=
  c = ' ' || c = '\t' || c = '\n' || c = '\r' || c.toNat == 11 || c.toNat == 12

/-- Continuation of a digit run in a Python float literal after one digit has
been consumed: further digits, with single underscores allowed between digits
(PEP 515).  Returns the digits consumed (underscores removed) and the
remainder of the input. -/
def digitTail : List Char → List Char × List Char
  | [] => ([], [])
  | c :: rest =>
    if c.isDigit then
      let r := digitTail rest
      (c :: r.1, r.2)
    else if c = '_' then
      match rest with
      | c2 :: rest2 =>
        if c2.isDigit then
          let r := digitTail rest2
          (c2 :: r.1, r.2)
        else ([], c :: rest)
      | [] => ([], [c])
    else ([], c :: rest)

/-- A `digitpart` of a Python float literal: at least one digit, with single
underscores allowed between digits.  Returns the digits (underscores removed)
and the remainder, or `none` if the input does not start with a digit. -/
def parseDigitPart (l : List Char) : Option (List Char × List Char) :=
  match l with
  | [] => none
  | c :: rest =>
    if c.isDigit then
      let r := digitTail rest
      some (c :: r.1, r.2)
    else none

/-- Optional leading sign of a Python float literal, as a rational factor. -/
def readSign : List Char → ℚ × List Char
  | '-' :: rest => (-1, rest)
  | '+' :: rest => (1, rest)
  | l => (1, l)

/-- Mantissa of a Python float literal: `digitpart ["." [digitpart]]` or
`"." digitpart`.  Returns (integer digits, fraction digits, remainder). -/
def parseMantissa (l : List Char) : Option (List Char × List Char × List Char) :=
  match parseDigitPart l with
  | some ip =>
    match ip.2 with
    | '.' :: rest2 =>
      match parseDigitPart rest2 with
      | some fp => some (ip.1, fp.1, fp.2)
      | none => some (ip.1, [], rest2)
    | _ => some (ip.1, [], ip.2)
  | none =>
    match l with
    | '.' :: rest =>
      match parseDigitPart rest with
      | some fp => some ([], fp.1, fp.2)
      | none => none
    | _ => none

/-- Optional exponent of a Python float literal: nothing (exponent 0), or
`("e"|"E") [sign] digitpart` consuming the whole remainder; anything else is a
parse failure. -/
def parseExponent (l : List Char) : Option Int :=
  match l with
  | [] => some 0
  | c :: rest =>
    if c = 'e' || c = 'E' then
      let se : Int × List Char :=
        match rest with
        | '-' :: r => (-1, r)
        | '+' :: r => (1, r)
        | _ => (1, rest)
      match parseDigitPart se.2 with
      | some ed => if ed.2.isEmpty then some (se.1 * (natVal ed.1 : Int)) else none
      | none => none
    else none

/-- Value of a Python `float`: a finite value (idealised as an exact rational),
positive or negative infinity, or NaN. -/
inductive PyFloatVal where
  | finite (q : ℚ)
  | pinf
  | ninf
  | nan
deriving DecidableEq

/-- Python `float(s)` on a string (CPython `PyOS_string_to_double` grammar over
ASCII input): strip whitespace from both ends, read an optional sign, then
either a case-insensitive `inf`/`infinity`/`nan`, or a mantissa of digits
(single underscores allowed between digits) with at most one decimal point and
at least one digit, followed by an optional `e`/`E` exponent; anything else
raises `ValueError`, modelled as `none`. -/
def pyFloatOfString (s : String) : Option PyFloatVal :=
  let cs0 := s.toList.dropWhile (fun c => isPySpace c)
  let cs := (cs0.reverse.dropWhile (fun c => isPySpace c)).reverse
  let sc := readSign cs
  let low := sc.2.map Char.toLower
  if low = ['i', 'n', 'f'] || low = ['i', 'n', 'f', 'i', 'n', 'i', 't', 'y'] then
    some (if sc.1 = 1 then PyFloatVal.pinf else PyFloatVal.ninf)
  else if low = ['n', 'a', 'n'] then some PyFloatVal.nan
  else
    match parseMantissa sc.2 with
    | none => none
    | some m =>
      match parseExponent m.2.2 with
      | none => none
      | some e =>
        some (PyFloatVal.finite (sc.1 * ((natVal m.1 : ℚ) +
          (natVal m.2.1 : ℚ) / (10 : ℚ) ^ (m.2.1).length) * (10 : ℚ) ^ e))

/-- Python `float(x)` applied to the value of the `"price"` field (App.py line
85): a JSON number converts directly, `None` raises `TypeError`, and a string
is parsed with the float-literal grammar, raising `ValueError` when
unparseable. -/
def pyFloat : JsonVal → Except FetchError PyFloatVal
  | JsonVal.jnull => Except.error FetchError.typeError
  | JsonVal.jnum q => Except.ok (PyFloatVal.finite q)
  | JsonVal.jstr s =>
    match pyFloatOfString s with
    | some v => Except.ok v
    | none => Except.error FetchError.valueError

/-- `fetch_price` (App.py lines 75-85): the request either times out, or
completes with a status and body; `r.raise_for_status()` raises exactly for
status 400 and higher; `data["price"]` raises `KeyError` when the key is
absent; otherwise `float(...)` converts the field value. -/
def fetch_price (r : ProviderResponse) : Except FetchError PyFloatVal :=
  if r.timedOut then Except.error FetchError.timeout
  else if 400 ≤ r.status then Except.error (FetchError.httpStatus r.status)
  else
    match r.price with
    | none => Except.error FetchError.keyError
    | some v => pyFloat v

/-- Whether an `Except` result is a success. -/
def exceptOk {ε α : Type} : Except ε α → Bool
  | Except.ok _ => true
  | Except.error _ => false

theorem dequeAppend_length {α : Type} (m : Nat) (buf : List α) (x : α) :
    (dequeAppend m buf x).length = min (buf.length + 1) m := by
  simp [dequeAppend]
  omega

theorem dequeAppend_of_lt {α : Type} (m : Nat) (buf : List α) (x : α)
    (h : buf.length < m) : dequeAppend m buf x = buf ++ [x] := by
  simp only [dequeAppend, List.length_append, List.length_singleton]
  rw [Nat.sub_eq_zero_of_le (by omega), List.drop_zero]

theorem dequeAppend_of_full {α : Type} (m : Nat) (buf : List α) (x : α)
    (h : buf.length = m) (hm : 0 < m) : dequeAppend m buf x = buf.drop 1 ++ [x] := by
  simp only [dequeAppend, List.length_append, List.length_singleton]
  have h1 : buf.length + 1 - m = 1 := by omega
  rw [h1, List.drop_append_eq_append_drop]
  have h2 : 1 - buf.length = 0 := by omega
  rw [h2, List.drop_zero]

theorem dequeAppend_mem {α : Type} {m : Nat} {buf : List α} {x t : α}
    (ht : t ∈ dequeAppend m buf x) : t ∈ buf ∨ t = x := by
  simp only [dequeAppend] at ht
  have h2 := List.mem_of_mem_drop ht
  simpa [List.mem_append] using h2

theorem dequeAppend_sorted {m : Nat} {buf : List ℚ} {x : ℚ}
    (hs : buf.Sorted (· < ·)) (hx : ∀ t ∈ buf, t < x) :
    (dequeAppend m buf x).Sorted (· < ·) := by
  have h1 : (buf ++ [x]).Pairwise (· < ·) := by
    refine List.pairwise_append.mpr ⟨hs, List.pairwise_singleton _ _, ?_⟩
    intro a ha b hb
    rw [List.mem_singleton] at hb
    exact hb ▸ hx a ha
  exact h1.sublist (List.drop_sublist _ _)

theorem foldl_dequeAppend_le (m : Nat) :
    ∀ (xs : List ℚ) (acc : List ℚ), acc.length ≤ m →
      ((xs.foldl (dequeAppend m) acc).length ≤ m) := by
  intro xs
  induction xs with
  | nil => intro acc ha; simpa using ha
  | cons x xs ih =>
    intro acc _
    rw [List.foldl_cons]
    exact ih (dequeAppend m acc x) (by rw [dequeAppend_length]; exact min_le_right _ _)

/-- C1: for every capacity `m` and every sequence of appends starting from the
empty buffer, the buffer length never exceeds `m`; an append below capacity
just adds the new sample as newest, and an append at capacity first evicts
exactly the single oldest sample (FIFO) and then adds the new one as newest. -/
theorem c1_buffer_capacity_fifo (m : Nat) :
    (∀ xs : List ℚ, ((xs.foldl (dequeAppend m) ([] : List ℚ)).length ≤ m))
  ∧ (∀ (buf : List ℚ) (x : ℚ), buf.length < m → dequeAppend m buf x = buf ++ [x])
  ∧ (∀ (buf : List ℚ) (x : ℚ), buf.length = m → 0 < m →
      dequeAppend m buf x = buf.drop 1 ++ [x]) :=
  ⟨fun xs => foldl_dequeAppend_le m xs [] (by simp),
   fun buf x h => dequeAppend_of_lt m buf x h,
   fun buf x h hm => dequeAppend_of_full m buf x h hm⟩

theorem c1_buffer_capacity_fifo_witness :
    dequeAppend 3 [(100 : ℚ), 101, 102] 103 = [101, 102, 103] :=
  ((c1_buffer_capacity_fifo 3).2.2 [100, 101, 102] 103 rfl (by norm_num)).trans rfl

theorem pollStep_paused_none (cap : Nat) (s : PollState) (c : ℚ) (f : FetchResult) (fd : ℚ) :
    pollStep cap s c { paused := true, fetch := f, fetchDur := fd, stopDuring := none } =
      ({ state := s, waits := [⟨WaitKind.stopWaitFor, POLL_INTERVAL_SEC⟩], warned := false,
         fetched := false, appended := none, cont := true }, c + POLL_INTERVAL_SEC) := by
  cases f <;> rfl

theorem pollStep_ok_none (cap : Nat) (s : PollState) (c : ℚ) (p fd : ℚ) :
    pollStep cap s c ⟨false, FetchResult.ok p, fd, none⟩ =
      (⟨⟨dequeAppend cap s.ts (c + fd), dequeAppend cap s.values p, s.nextDelay⟩,
        [⟨WaitKind.stopWaitFor, POLL_INTERVAL_SEC⟩], false, true, some (c + fd, p), true⟩,
       c + fd + POLL_INTERVAL_SEC) := rfl

theorem pollStep_timeoutErr (cap : Nat) (s : PollState) (c : ℚ) (fd : ℚ) (sd : Option ℚ) :
    pollStep cap s c ⟨false, FetchResult.timeoutErr, fd, sd⟩ =
      (⟨s, [], false, true, none, sd.isNone⟩, c + fd) := rfl

theorem pollStep_exn (cap : Nat) (s : PollState) (c : ℚ) (fd : ℚ) (sd : Option ℚ) :
    pollStep cap s c ⟨false, FetchResult.exn, fd, sd⟩ =
      (⟨⟨s.ts, s.values, min 10 (s.nextDelay * 2)⟩,
        [⟨WaitKind.plainSleep, min 10 s.nextDelay⟩], true, true, none, sd.isNone⟩,
       c + fd + min 10 s.nextDelay) := rfl

theorem pollRun_nil (cap : Nat) (s : PollState) (c : ℚ) :
    pollRun cap s c [] = (s, c, []) := rfl

theorem pollRun_cons (cap : Nat) (s : PollState) (c : ℚ) (i : TickInput)
    (rest : List TickInput) :
    pollRun cap s c (i :: rest) =
      (if (pollStep cap s c i).1.cont then
        ((pollRun cap (pollStep cap s c i).1.state (pollStep cap s c i).2 rest).1,
         (pollRun cap (pollStep cap s c i).1.state (pollStep cap s c i).2 rest).2.1,
         (pollStep cap s c i).1 ::
           (pollRun cap (pollStep cap s c i).1.state (pollStep cap s c i).2 rest).2.2)
      else ((pollStep cap s c i).1.state, (pollStep cap s c i).2, [(pollStep cap s c i).1])) :=
  rfl

/-- C8: with capacity 3 and four successful unpaused polls returning 100, 101,
102, 103 (fetches instantaneous, clock starting at 0, so the polls happen at
times 0, 2, 4, 6), the final buffer holds exactly the last three samples in
order; the first poll's sample (0, 100) was appended and then evicted. -/
theorem c8_capacity3_scenario :
    ((pollRun 3 initPoll 0 [okInput 100, okInput 101, okInput 102, okInput 103]).1).ts
        = [2, 4, 6]
  ∧ ((pollRun 3 initPoll 0 [okInput 100, okInput 101, okInput 102, okInput 103]).1).values
        = [101, 102, 103]
  ∧ ((pollRun 3 initPoll 0 [okInput 100, okInput 101, okInput 102, okInput 103]).2.2).map
        (fun o => o.appended)
        = [some (0, 100), some (2, 101), some (4, 102), some (6, 103)] := by
  norm_num [okInput, pollRun_cons, pollRun_nil, pollStep_ok_none, dequeAppend, initPoll,
    POLL_INTERVAL_SEC]

/-- C2 (code evaluated at the failing input): after one failure the backoff
delay is 4; a successful fetch then happens (a sample is appended), but the
delay is NOT reset to the base 2 — the reset at line 109 is unreachable in the
normal success path because the `wait_for` timeout raises into the `continue`
handler first — so the next failure sleeps 4 seconds and leaves the delay at 8. -/
theorem c2_success_does_not_reset_backoff :
    ((pollRun 300 initPoll 0 [failInput, okInput 100, failInput]).1).nextDelay = 8
  ∧ ((pollRun 300 initPoll 0 [failInput, okInput 100, failInput]).2.2).map
        (fun o => o.appended) = [none, some (2, 100), none]
  ∧ ((pollRun 300 initPoll 0 [failInput, okInput 100, failInput]).2.2).map
        (fun o => o.waits.map (fun w => w.timeout)) = [[2], [2], [4]] := by
  norm_num [okInput, failInput, pollRun_cons, pollRun_nil, pollStep_ok_none, pollStep_exn,
    dequeAppend, initPoll, POLL_INTERVAL_SEC]

/-- C6 (code evaluated at the failing input): a fetch whose HTTP request times
out raises `asyncio.TimeoutError`, which is swallowed by the handler meant for
the poll-pacing `wait_for` — the iteration performs no wait at all, prints no
warning, does not change the backoff delay, and immediately continues; by
contrast a non-timeout fetch failure does warn and back off.  In both cases the
loop continues (the failure is non-fatal). -/
theorem c6_fetch_timeout_not_reported_no_backoff :
    (pollStep 300 initPoll 0 timeoutInput).1.warned = false
  ∧ (pollStep 300 initPoll 0 timeoutInput).1.waits = []
  ∧ (pollStep 300 initPoll 0 timeoutInput).1.state = initPoll
  ∧ (pollStep 300 initPoll 0 timeoutInput).2 = 0
  ∧ (pollStep 300 initPoll 0 timeoutInput).1.cont = true
  ∧ (pollStep 300 initPoll 0 failInput).1.warned = true
  ∧ (pollStep 300 initPoll 0 failInput).1.waits = [⟨WaitKind.plainSleep, 2⟩]
  ∧ (pollStep 300 initPoll 0 failInput).1.cont = true := by
  norm_num [timeoutInput, failInput, pollStep_timeoutErr, pollStep_exn, initPoll,
    POLL_INTERVAL_SEC]

theorem min_ten_double (x : ℚ) : min 10 (min 10 x * 2) = min 10 (x * 2) := by
  rcases le_total x 10 with h | h
  · rw [min_eq_right h]
  · rw [min_eq_left h]
    rw [min_eq_left (by norm_num : (10 : ℚ) ≤ 10 * 2), min_eq_left (by linarith)]

theorem pollRun_replicate_fail_delay (cap : Nat) :
    ∀ (k : Nat) (s : PollState) (c : ℚ),
      ((pollRun cap s c (List.replicate k failInput)).1).nextDelay =
        (fun d => min 10 (d * 2))^[k] s.nextDelay := by
  intro k
  induction k with
  | zero => intro s c; rfl
  | succ n ih =>
    intro s c
    rw [List.replicate_succ, pollRun_cons]
    have hstep : pollStep cap s c failInput =
        (⟨⟨s.ts, s.values, min 10 (s.nextDelay * 2)⟩,
          [⟨WaitKind.plainSleep, min 10 s.nextDelay⟩], true, true, none, true⟩,
         c + 0 + min 10 s.nextDelay) := pollStep_exn cap s c 0 none
    rw [hstep]
    simp only [if_true]
    rw [ih]
    rw [Function.iterate_succ_apply]

theorem iterate_double_from_two :
    ∀ k : Nat, (fun d => min 10 (d * 2))^[k] (2 : ℚ) = min 10 ((2 : ℚ) ^ (k + 1)) := by
  intro k
  induction k with
  | zero => norm_num
  | succ n ih =>
    rw [Function.iterate_succ_apply', ih]
    rw [min_ten_double]
    congr 1
    ring

/-- C3: the backoff branch (App.py lines 117-122) sleeps exactly
`min(10, next_delay)` seconds and then sets `next_delay := min(10,
next_delay * 2)`; starting from the base delay 2 with cap 10, after `k`
consecutive such failures the delay is `min(10, 2^(k+1))`, and five
consecutive failures from the start produce waits of exactly 2, 4, 8, 10, 10
seconds.  However, the claim's "on every fetch failure" does not hold: a fetch
whose request times out raises `asyncio.TimeoutError`, which the handler at
line 110 intercepts with a bare `continue` — the last conjunct evaluates such
a failing input (current delay 8) and shows no wait is performed and the delay
is not doubled. -/
theorem c3_backoff_doubling (cap : Nat) :
    (∀ (s : PollState) (c fd : ℚ) (sd : Option ℚ),
      ((pollStep cap s c ⟨false, FetchResult.exn, fd, sd⟩).1).waits =
          [⟨WaitKind.plainSleep, min 10 s.nextDelay⟩]
      ∧ ((pollStep cap s c ⟨false, FetchResult.exn, fd, sd⟩).1).state.nextDelay =
          min 10 (s.nextDelay * 2))
  ∧ (∀ k : Nat, ((pollRun cap initPoll 0 (List.replicate k failInput)).1).nextDelay =
      min 10 ((2 : ℚ) ^ (k + 1)))
  ∧ (((pollRun cap initPoll 0 (List.replicate 5 failInput)).2.2).map
        (fun o => o.waits.map (fun w => w.timeout)) = [[2], [4], [8], [10], [10]])
  ∧ ((pollStep cap ⟨[], [], 8⟩ 0 timeoutInput).1.waits = ([] : List WaitEv)
      ∧ (pollStep cap ⟨[], [], 8⟩ 0 timeoutInput).1.state.nextDelay = 8) := by
  refine ⟨?_, ?_, ?_, rfl, rfl⟩
  · intro s c fd sd
    rw [pollStep_exn]
    exact ⟨rfl, rfl⟩
  · intro k
    rw [pollRun_replicate_fail_delay]
    have h2 : initPoll.nextDelay = 2 := rfl
    rw [h2, iterate_double_from_two]
  · norm_num [failInput, pollRun_cons, pollRun_nil, pollStep_exn, initPoll, POLL_INTERVAL_SEC,
      List.replicate]


theorem pollRun_all_paused (cap : Nat) :
    ∀ (inps : List TickInput) (s : PollState) (c : ℚ),
      (∀ i ∈ inps, i.paused = true ∧ i.stopDuring = none) →
      (pollRun cap s c inps).1 = s
      ∧ (pollRun cap s c inps).2.1 = c + inps.length * POLL_INTERVAL_SEC
      ∧ ∀ o ∈ (pollRun cap s c inps).2.2,
          o.state = s ∧ o.fetched = false ∧ o.appended = none
          ∧ o.waits = [⟨WaitKind.stopWaitFor, POLL_INTERVAL_SEC⟩] := by
  intro inps
  induction inps with
  | nil =>
    intro s c _
    refine ⟨rfl, by simp [pollRun_nil], by simp [pollRun_nil]⟩
  | cons i rest ih =>
    intro s c h
    obtain ⟨hp, hsd⟩ := h i (List.mem_cons_self i rest)
    obtain ⟨pa, f, fd, sd⟩ := i
    cases hp
    cases hsd
    rw [pollRun_cons, pollStep_paused_none]
    simp only [if_true]
    have hrest := ih s (c + POLL_INTERVAL_SEC) (fun j hj => h j (List.mem_cons_of_mem _ hj))
    refine ⟨hrest.1, ?_, ?_⟩
    · rw [hrest.2.1]
      simp only [List.length_cons]
      push_cast
      ring
    · intro o ho
      rcases List.mem_cons.mp ho with ho1 | ho2
      · cases ho1; exact ⟨rfl, rfl, rfl, rfl⟩
      · exact hrest.2.2 o ho2

/-- C4: while a series is paused (for any run of consecutive ticks with the
stop event unset), no fetch is attempted, nothing is appended, the whole state
(both deques and the backoff delay) is unchanged, and the clock still advances
by exactly one poll interval per tick; on the first unpaused tick afterwards, a
successful fetch appends exactly one sample (timestamp, price) to each deque. -/
theorem c4_pause_skips_fetch_keeps_cadence (cap : Nat) (s : PollState) (c : ℚ)
    (inps : List TickInput) (h : ∀ i ∈ inps, i.paused = true ∧ i.stopDuring = none) :
    ((pollRun cap s c inps).1 = s
      ∧ (pollRun cap s c inps).2.1 = c + inps.length * POLL_INTERVAL_SEC
      ∧ ∀ o ∈ (pollRun cap s c inps).2.2, o.fetched = false ∧ o.appended = none)
  ∧ (∀ p fd : ℚ,
      (pollStep cap s c ⟨false, FetchResult.ok p, fd, none⟩).1.state.ts =
          dequeAppend cap s.ts (c + fd)
      ∧ (pollStep cap s c ⟨false, FetchResult.ok p, fd, none⟩).1.state.values =
          dequeAppend cap s.values p
      ∧ (pollStep cap s c ⟨false, FetchResult.ok p, fd, none⟩).1.appended =
          some (c + fd, p)) := by
  have hrun := pollRun_all_paused cap inps s c h
  refine ⟨⟨hrun.1, hrun.2.1, fun o ho => ⟨(hrun.2.2 o ho).2.1, (hrun.2.2 o ho).2.2.1⟩⟩, ?_⟩
  intro p fd
  rw [pollStep_ok_none]
  exact ⟨rfl, rfl, rfl⟩

theorem c4_pause_skips_fetch_keeps_cadence_witness :
    (pollRun 300 initPoll 0 [pausedTick, pausedTick]).1 = initPoll :=
  (c4_pause_skips_fetch_keeps_cadence 300 initPoll 0 [pausedTick, pausedTick]
    (by intro i hi; rcases List.mem_cons.mp hi with h | h <;>
      simp_all [pausedTick])).1.1

theorem pollStep_paused_some_lt (cap : Nat) (s : PollState) (c : ℚ) (f : FetchResult)
    (fd a : ℚ) (h : a < POLL_INTERVAL_SEC) :
    pollStep cap s c ⟨true, f, fd, some a⟩ =
      (⟨⟨s.ts, s.values, POLL_INTERVAL_SEC⟩, [⟨WaitKind.stopWaitFor, POLL_INTERVAL_SEC⟩],
        false, false, none, false⟩, c + a) := by
  cases f <;> simp [pollStep, pollWait, h]

theorem pollStep_paused_some_ge (cap : Nat) (s : PollState) (c : ℚ) (f : FetchResult)
    (fd a : ℚ) (h : ¬a < POLL_INTERVAL_SEC) :
    pollStep cap s c ⟨true, f, fd, some a⟩ =
      (⟨s, [⟨WaitKind.stopWaitFor, POLL_INTERVAL_SEC⟩], false, false, none, false⟩,
       c + POLL_INTERVAL_SEC) := by
  cases f <;> simp [pollStep, pollWait, h]

theorem pollStep_ok_some_lt (cap : Nat) (s : PollState) (c p fd a : ℚ)
    (h : a < POLL_INTERVAL_SEC) :
    pollStep cap s c ⟨false, FetchResult.ok p, fd, some a⟩ =
      (⟨⟨dequeAppend cap s.ts (c + fd), dequeAppend cap s.values p, POLL_INTERVAL_SEC⟩,
        [⟨WaitKind.stopWaitFor, POLL_INTERVAL_SEC⟩], false, true, some (c + fd, p), false⟩,
       c + fd + a) := by
  simp [pollStep, pollWait, h]

theorem pollStep_ok_some_ge (cap : Nat) (s : PollState) (c p fd a : ℚ)
    (h : ¬a < POLL_INTERVAL_SEC) :
    pollStep cap s c ⟨false, FetchResult.ok p, fd, some a⟩ =
      (⟨⟨dequeAppend cap s.ts (c + fd), dequeAppend cap s.values p, s.nextDelay⟩,
        [⟨WaitKind.stopWaitFor, POLL_INTERVAL_SEC⟩], false, true, some (c + fd, p), false⟩,
       c + fd + POLL_INTERVAL_SEC) := by
  simp [pollStep, pollWait, h]

theorem pollRun_cons_cont (cap : Nat) (s : PollState) (c : ℚ) (i : TickInput)
    (rest : List TickInput) (h : (pollStep cap s c i).1.cont = true) :
    pollRun cap s c (i :: rest) =
      ((pollRun cap (pollStep cap s c i).1.state (pollStep cap s c i).2 rest).1,
       (pollRun cap (pollStep cap s c i).1.state (pollStep cap s c i).2 rest).2.1,
       (pollStep cap s c i).1 ::
         (pollRun cap (pollStep cap s c i).1.state (pollStep cap s c i).2 rest).2.2) := by
  rw [pollRun_cons, if_pos h]

theorem pollRun_cons_stop (cap : Nat) (s : PollState) (c : ℚ) (i : TickInput)
    (rest : List TickInput) (h : (pollStep cap s c i).1.cont = false) :
    pollRun cap s c (i :: rest) =
      ((pollStep cap s c i).1.state, (pollStep cap s c i).2, [(pollStep cap s c i).1]) := by
  rw [pollRun_cons, if_neg (by rw [h]; exact Bool.false_ne_true)]

/-- C5 counterexample: a fetch failure during whose backoff the stop event is
set immediately (0 seconds into the sleep).  The backoff wait performed is the
plain sleep of the full `min(10, next_delay) = 2` seconds, and the clock still
advances by the full 2 seconds — the stop signal did not interrupt the backoff
wait, contradicting the claim that the poller terminates without waiting out
the full backoff delay. -/
theorem c5_counterexample :
    stoppedFailInput.stopDuring = some 0
  ∧ (pollStep 300 initPoll 0 stoppedFailInput).1.waits = [⟨WaitKind.plainSleep, 2⟩]
  ∧ (pollStep 300 initPoll 0 stoppedFailInput).2 = 2
  ∧ ¬((pollStep 300 initPoll 0 stoppedFailInput).2 < 2)
  ∧ (pollStep 300 initPoll 0 stoppedFailInput).1.cont = false := by
  norm_num [stoppedFailInput, pollStep_exn, initPoll, POLL_INTERVAL_SEC]

/-- C5 amended: only the post-success (and post-pause) poll-interval wait —
`asyncio.wait_for` on the stop event — is interrupted by the stop signal: if
the stop event is set `a < POLL_INTERVAL_SEC` seconds into it, the iteration
ends after `a` seconds and the loop exits.  The post-failure backoff wait is a
plain `asyncio.sleep` that is NOT interrupted by the stop signal: the poller
sleeps the full `min(10, next_delay)` and only then exits at the next loop
check. -/
theorem c5_amended_only_poll_wait_interruptible (cap : Nat) (s : PollState)
    (c p fd a : ℚ) (ha : a < POLL_INTERVAL_SEC) :
    ((pollStep cap s c ⟨false, FetchResult.ok p, fd, some a⟩).2 = c + fd + a
      ∧ (pollStep cap s c ⟨false, FetchResult.ok p, fd, some a⟩).1.cont = false)
  ∧ ((pollStep cap s c ⟨false, FetchResult.exn, fd, some a⟩).2 =
        c + fd + min 10 s.nextDelay
      ∧ (pollStep cap s c ⟨false, FetchResult.exn, fd, some a⟩).1.cont = false) := by
  rw [pollStep_ok_some_lt cap s c p fd a ha, pollStep_exn]
  exact ⟨⟨rfl, rfl⟩, rfl, rfl⟩

theorem c5_amended_only_poll_wait_interruptible_witness :
    (pollStep 300 initPoll 0 ⟨false, FetchResult.ok 100, 0, some 1⟩).2 = 0 + 0 + 1 :=
  ((c5_amended_only_poll_wait_interruptible 300 initPoll 0 100 0 1
    (by norm_num [POLL_INTERVAL_SEC])).1).1

theorem poll_pos : (0 : ℚ) < POLL_INTERVAL_SEC := by
  norm_num [POLL_INTERVAL_SEC]

theorem clockAhead_mono {s : PollState} {c c2 : ℚ} (h : clockAhead s c) (hcc : c ≤ c2) :
    clockAhead s c2 :=
  fun t ht => le_trans (h t ht) hcc

theorem pollStep_sorted_inv (cap : Nat) (s : PollState) (c : ℚ) (i : TickInput)
    (hfd : 0 ≤ i.fetchDur) (hs : s.ts.Sorted (· < ·)) (hc : clockAhead s c)
    (hd : 0 ≤ s.nextDelay) :
    ((pollStep cap s c i).1.state.ts.Sorted (· < ·))
  ∧ ((pollStep cap s c i).1.cont = true →
      (clockAhead (pollStep cap s c i).1.state (pollStep cap s c i).2
        ∧ 0 ≤ (pollStep cap s c i).1.state.nextDelay)) := by
  obtain ⟨pa, f, fd, sd⟩ := i
  have hfd : (0 : ℚ) ≤ fd := hfd
  have hlt : ∀ t ∈ s.ts, t < c + fd := by
    intro t ht
    have h1 := hc t ht
    have h2 := poll_pos
    linarith
  cases pa
  · cases f with
    | ok p =>
      rcases sd with _ | a
      · rw [pollStep_ok_none]
        dsimp only
        refine ⟨dequeAppend_sorted hs hlt, fun _ => ⟨?_, hd⟩⟩
        intro t ht
        rcases dequeAppend_mem ht with h1 | h1
        · have h2 := hc t h1
          linarith [poll_pos.le]
        · rw [h1]
      · by_cases ha : a < POLL_INTERVAL_SEC
        · rw [pollStep_ok_some_lt cap s c p fd a ha]
          exact ⟨dequeAppend_sorted hs hlt, fun h => absurd h Bool.false_ne_true⟩
        · rw [pollStep_ok_some_ge cap s c p fd a ha]
          exact ⟨dequeAppend_sorted hs hlt, fun h => absurd h Bool.false_ne_true⟩
    | timeoutErr =>
      rw [pollStep_timeoutErr]
      dsimp only
      exact ⟨hs, fun _ => ⟨clockAhead_mono hc (by linarith), hd⟩⟩
    | exn =>
      rw [pollStep_exn]
      dsimp only
      have hmin : (0 : ℚ) ≤ min 10 s.nextDelay := le_min (by norm_num) hd
      exact ⟨hs, fun _ => ⟨clockAhead_mono hc (by linarith),
        le_min (by norm_num) (by linarith)⟩⟩
  · rcases sd with _ | a
    · rw [pollStep_paused_none]
      dsimp only
      exact ⟨hs, fun _ => ⟨clockAhead_mono hc (by linarith [poll_pos.le]), hd⟩⟩
    · by_cases ha : a < POLL_INTERVAL_SEC
      · rw [pollStep_paused_some_lt cap s c f fd a ha]
        exact ⟨hs, fun h => absurd h Bool.false_ne_true⟩
      · rw [pollStep_paused_some_ge cap s c f fd a ha]
        exact ⟨hs, fun h => absurd h Bool.false_ne_true⟩

theorem pollRun_sorted_aux (cap : Nat) :
    ∀ (inps : List TickInput) (s : PollState) (c : ℚ),
      (∀ i ∈ inps, 0 ≤ i.fetchDur) → s.ts.Sorted (· < ·) → clockAhead s c →
      0 ≤ s.nextDelay →
      ((pollRun cap s c inps).1.ts.Sorted (· < ·)
        ∧ ∀ o ∈ (pollRun cap s c inps).2.2, o.state.ts.Sorted (· < ·)) := by
  intro inps
  induction inps with
  | nil =>
    intro s c _ hs _ _
    exact ⟨hs, by simp [pollRun_nil]⟩
  | cons i rest ih =>
    intro s c hf hs hc hd
    have hfd : 0 ≤ i.fetchDur := hf i (List.mem_cons_self i rest)
    have hstep := pollStep_sorted_inv cap s c i hfd hs hc hd
    by_cases hcont : (pollStep cap s c i).1.cont = true
    · rw [pollRun_cons_cont cap s c i rest hcont]
      obtain ⟨hca, hnd⟩ := hstep.2 hcont
      have hrest := ih _ _ (fun j hj => hf j (List.mem_cons_of_mem _ hj)) hstep.1 hca hnd
      refine ⟨hrest.1, ?_⟩
      intro o ho
      rcases List.mem_cons.mp ho with h1 | h2
      · rw [h1]; exact hstep.1
      · exact hrest.2 o h2
    · rw [Bool.not_eq_true] at hcont
      rw [pollRun_cons_stop cap s c i rest hcont]
      refine ⟨hstep.1, ?_⟩
      intro o ho
      rw [List.mem_singleton.mp ho]
      exact hstep.1

/-- C9: starting from the empty buffers, for any sequence of loop iterations
with nonnegative fetch durations, the timestamp buffer is strictly increasing
(each appended sample's timestamp is strictly larger than every earlier one's),
both in the final state and in every intermediate state the loop produces. -/
theorem c9_timestamps_strictly_increasing (cap : Nat) (c : ℚ) (inps : List TickInput)
    (hf : ∀ i ∈ inps, 0 ≤ i.fetchDur) :
    ((pollRun cap initPoll c inps).1.ts.Sorted (· < ·))
  ∧ ∀ o ∈ (pollRun cap initPoll c inps).2.2, o.state.ts.Sorted (· < ·) := by
  have h0 : initPoll.ts.Sorted (· < ·) := List.sorted_nil
  have hca : clockAhead initPoll c := by
    intro t ht
    simp [initPoll] at ht
  have hd : (0 : ℚ) ≤ initPoll.nextDelay := by
    norm_num [initPoll, POLL_INTERVAL_SEC]
  exact pollRun_sorted_aux cap inps initPoll c hf h0 hca hd

theorem c9_timestamps_strictly_increasing_witness :
    ((pollRun 300 initPoll 0 [okInput 100, okInput 101]).1.ts.Sorted (· < ·)) :=
  (c9_timestamps_strictly_increasing 300 0 [okInput 100, okInput 101]
    (by intro i hi; rcases List.mem_cons.mp hi with h | h <;> simp_all [okInput])).1

theorem pollStep_lens (cap : Nat) (s : PollState) (c : ℚ) (i : TickInput)
    (h : s.ts.length = s.values.length) :
    (pollStep cap s c i).1.state.ts.length = (pollStep cap s c i).1.state.values.length := by
  obtain ⟨pa, f, fd, sd⟩ := i
  cases pa
  · cases f with
    | ok p =>
      rcases sd with _ | a
      · rw [pollStep_ok_none]
        simp [dequeAppend_length, h]
      · by_cases ha : a < POLL_INTERVAL_SEC
        · rw [pollStep_ok_some_lt cap s c p fd a ha]
          simp [dequeAppend_length, h]
        · rw [pollStep_ok_some_ge cap s c p fd a ha]
          simp [dequeAppend_length, h]
    | timeoutErr => rw [pollStep_timeoutErr]; exact h
    | exn => rw [pollStep_exn]; exact h
  · rcases sd with _ | a
    · rw [pollStep_paused_none]; exact h
    · by_cases ha : a < POLL_INTERVAL_SEC
      · rw [pollStep_paused_some_lt cap s c f fd a ha]; exact h
      · rw [pollStep_paused_some_ge cap s c f fd a ha]; exact h

theorem pollRun_lens (cap : Nat) :
    ∀ (inps : List TickInput) (s : PollState) (c : ℚ),
      s.ts.length = s.values.length →
      ((pollRun cap s c inps).1.ts.length = (pollRun cap s c inps).1.values.length
        ∧ ∀ o ∈ (pollRun cap s c inps).2.2,
            o.state.ts.length = o.state.values.length) := by
  intro inps
  induction inps with
  | nil =>
    intro s c h
    exact ⟨h, by simp [pollRun_nil]⟩
  | cons i rest ih =>
    intro s c h
    have hstep := pollStep_lens cap s c i h
    by_cases hcont : (pollStep cap s c i).1.cont = true
    · rw [pollRun_cons_cont cap s c i rest hcont]
      have hrest := ih ((pollStep cap s c i).1.state) ((pollStep cap s c i).2) hstep
      refine ⟨hrest.1, ?_⟩
      intro o ho
      rcases List.mem_cons.mp ho with h1 | h2
      · rw [h1]; exact hstep
      · exact hrest.2 o h2
    · rw [Bool.not_eq_true] at hcont
      rw [pollRun_cons_stop cap s c i rest hcont]
      refine ⟨hstep, ?_⟩
      intro o ho
      rw [List.mem_singleton.mp ho]
      exact hstep

/-- C10: both deques start empty, and in every state the loop ever produces —
every intermediate state as well as the final one — the timestamp deque and the
value deque have exactly the same length (both are appended to together, with
no suspension point in between). -/
theorem c10_buffers_same_length (cap : Nat) (c : ℚ) (inps : List TickInput) :
    initPoll.ts = ([] : List ℚ) ∧ initPoll.values = ([] : List ℚ)
  ∧ ((pollRun cap initPoll c inps).1.ts.length =
      (pollRun cap initPoll c inps).1.values.length)
  ∧ ∀ o ∈ (pollRun cap initPoll c inps).2.2,
      o.state.ts.length = o.state.values.length := by
  have h := pollRun_lens cap inps initPoll c rfl
  exact ⟨rfl, rfl, h.1, h.2⟩

theorem c10_buffers_same_length_witness :
    (pollRun 300 initPoll 0 [okInput 100]).1.ts.length =
      (pollRun 300 initPoll 0 [okInput 100]).1.values.length :=
  (c10_buffers_same_length 300 0 [okInput 100]).2.2.1

theorem pyFloat_ok_iff (v : JsonVal) :
    exceptOk (pyFloat v) = true ↔
      (v ≠ JsonVal.jnull ∧ ∀ s, v = JsonVal.jstr s → (pyFloatOfString s).isSome = true) := by
  cases v with
  | jnull => simp [pyFloat, exceptOk]
  | jnum q => simp [pyFloat, exceptOk]
  | jstr s => cases h : pyFloatOfString s <;> simp [pyFloat, exceptOk, h]

theorem pyFloatOfString_100 : pyFloatOfString "100" = some (PyFloatVal.finite 100) := by
  have h : pyFloatOfString "100" = some (PyFloatVal.finite ((1 : ℚ) *
      ((natVal ['1', '0', '0'] : ℚ) +
        (natVal ([] : List Char) : ℚ) / (10 : ℚ) ^ (([] : List Char)).length) *
      (10 : ℚ) ^ (0 : ℤ))) := rfl
  rw [h]
  have h1 : natVal ['1', '0', '0'] = 100 := rfl
  have h2 : natVal ([] : List Char) = 0 := rfl
  rw [h1, h2]
  norm_num

theorem pyFloatOfString_exponent : pyFloatOfString "1e5" = some (PyFloatVal.finite 100000) := by
  have h : pyFloatOfString "1e5" = some (PyFloatVal.finite ((1 : ℚ) *
      ((natVal ['1'] : ℚ) +
        (natVal ([] : List Char) : ℚ) / (10 : ℚ) ^ (([] : List Char)).length) *
      (10 : ℚ) ^ ((1 : ℤ) * (natVal ['5'] : ℤ)))) := rfl
  rw [h]
  have h1 : natVal ['1'] = 1 := rfl
  have h2 : natVal ([] : List Char) = 0 := rfl
  have h3 : natVal ['5'] = 5 := rfl
  rw [h1, h2, h3]
  norm_num

theorem pyFloatOfString_whitespace_frac :
    pyFloatOfString " 2.5 " = some (PyFloatVal.finite (5 / 2)) := by
  have h : pyFloatOfString " 2.5 " = some (PyFloatVal.finite ((1 : ℚ) *
      ((natVal ['2'] : ℚ) + (natVal ['5'] : ℚ) / (10 : ℚ) ^ (['5'] : List Char).length) *
      (10 : ℚ) ^ (0 : ℤ))) := rfl
  rw [h]
  have h1 : natVal ['2'] = 2 := rfl
  have h2 : natVal ['5'] = 5 := rfl
  rw [h1, h2]
  norm_num

theorem pyFloatOfString_underscores :
    pyFloatOfString "1_000" = some (PyFloatVal.finite 1000) := by
  have h : pyFloatOfString "1_000" = some (PyFloatVal.finite ((1 : ℚ) *
      ((natVal ['1', '0', '0', '0'] : ℚ) +
        (natVal ([] : List Char) : ℚ) / (10 : ℚ) ^ (([] : List Char)).length) *
      (10 : ℚ) ^ (0 : ℤ))) := rfl
  rw [h]
  have h1 : natVal ['1', '0', '0', '0'] = 1000 := rfl
  have h2 : natVal ([] : List Char) = 0 := rfl
  rw [h1, h2]
  norm_num

theorem pyFloatOfString_specials :
    pyFloatOfString "inf" = some PyFloatVal.pinf
  ∧ pyFloatOfString "-Infinity" = some PyFloatVal.ninf
  ∧ pyFloatOfString "NaN" = some PyFloatVal.nan := ⟨rfl, rfl, rfl⟩

theorem pyFloatOfString_rejects :
    pyFloatOfString "abc" = none
  ∧ pyFloatOfString "1__0" = none
  ∧ pyFloatOfString "1e" = none
  ∧ pyFloatOfString "" = none := ⟨rfl, rfl, rfl, rfl⟩

/-- C7 counterexample: 304 is a non-2xx HTTP status, yet `fetch_price` succeeds
on a 304 response carrying a price (`raise_for_status` only raises for status
400 and higher); and `"abc"` is a present, non-null price field, yet
`fetch_price` fails on it with `ValueError` (`float("abc")` is unparseable).
Both contradict the claim's "fails exactly when timeout, non-2xx, or missing or
null field". -/
theorem c7_counterexample :
    (¬(200 ≤ 304 ∧ 304 < 300))
  ∧ fetch_price ⟨false, 304, some (JsonVal.jstr "100")⟩ =
      Except.ok (PyFloatVal.finite 100)
  ∧ JsonVal.jstr "abc" ≠ JsonVal.jnull
  ∧ fetch_price ⟨false, 200, some (JsonVal.jstr "abc")⟩
      = Except.error FetchError.valueError := by
  refine ⟨by norm_num, ?_, by simp, rfl⟩
  show pyFloat (JsonVal.jstr "100") = Except.ok (PyFloatVal.finite 100)
  simp [pyFloat, pyFloatOfString_100]

/-- C7 amended: a fetch attempt fails exactly when the request times out, the
HTTP status is 400 or higher, or the top-level `"price"` field is missing,
null, or a string that `float()` cannot parse; otherwise it succeeds and
returns the float value of the field (the parsed value for a string —
including exponent notation, `inf`/`nan`, surrounding whitespace and
underscore-separated digits, which `float()` accepts). -/
theorem c7_amended_fetch_failure_characterization (r : ProviderResponse) :
    (exceptOk (fetch_price r) = true ↔
      (r.timedOut = false ∧ r.status < 400 ∧
        ∃ v, r.price = some v ∧ v ≠ JsonVal.jnull ∧
          ∀ s, v = JsonVal.jstr s → (pyFloatOfString s).isSome = true))
  ∧ (∀ (v : JsonVal) (w : PyFloatVal), r.timedOut = false → r.status < 400 →
      r.price = some v → pyFloat v = Except.ok w → fetch_price r = Except.ok w) := by
  obtain ⟨tmo, st, pr⟩ := r
  constructor
  · cases tmo
    · by_cases hst : 400 ≤ st
      · have h1 : ¬st < 400 := by omega
        simp [fetch_price, hst, exceptOk, h1]
      · have hlt : st < 400 := by omega
        rcases pr with _ | v
        · simp [fetch_price, hst, exceptOk, hlt]
        · have h2 : fetch_price ⟨false, st, some v⟩ = pyFloat v := by
            simp [fetch_price, hst]
          rw [h2]
          simpa [hlt] using pyFloat_ok_iff v
    · simp [fetch_price, exceptOk]
  · intro v w hto hst hpr hpf
    cases hto
    cases hpr
    dsimp only at hst
    have h2 : fetch_price ⟨false, st, some v⟩ = pyFloat v := by
      simp [fetch_price, show ¬400 ≤ st by omega]
    rw [h2, hpf]

theorem c7_amended_fetch_failure_characterization_witness :
    fetch_price ⟨false, 200, some (JsonVal.jnum 5)⟩ = Except.ok (PyFloatVal.finite 5) :=
  (c7_amended_fetch_failure_characterization ⟨false, 200, some (JsonVal.jnum 5)⟩).2
    (JsonVal.jnum 5) (PyFloatVal.finite 5) rfl (by norm_num) rfl rfl
